import Mathlib

/-!
Verification of the Apollo scientific entity extraction core
(`apollo/ner/scientific_extractor.py`, `apollo/ner/extractor.py`).

Texts are modelled as `List Char`; the spaCy document entities, the
BioBERT token-classification output and the relation classifier are
black boxes and appear as parameters.  Machine behaviour (Python slices,
dict insertion order, regex backtracking) is embedded faithfully.
-/

namespace Apollo

/-- A piece of text, as the list of its characters. -/
abbrev Str := List Char

/-- Characters of a string literal. -/
def toL (s : String) : Str := s.toList

/-- Python `str.lower()` (ASCII inputs). -/
def lower (s : Str) : Str := s.map Char.toLower

/-- Python slice `s[a:b]` on `List Char`: clamps at both ends, empty when
`b ≤ a` (`Nat` subtraction supplies the clamping). -/
def sliceL (s : Str) (a b : Nat) : Str := (s.drop a).take (b - a)

/-- Length of the maximal run of characters satisfying `p` starting at
index `i`. -/
def runLength (p : Char → Bool) (s : Str) (i : Nat) : Nat :=
  ((s.drop i).takeWhile p).length

/-- Character at index `i`, if any. -/
def charAt (s : Str) (i : Nat) : Option Char := s.get? i

/-! ## extract_aliases (scientific_extractor.py lines 328-348)

The Python regex `([A-Za-z\s\'-]+)\s*\(([A-Z]{1,5})\)` is embedded as a
backtracking matcher: group 1 is greedy, `\s*` is greedy, the acronym
quantifier `{1,5}` is greedy, and backtracking reduces the innermost
quantifier first, exactly as Python's `re` engine does.  `re.finditer`
scans left to right and resumes after each match. -/

/-- Python `\s` (ASCII range). -/
def isSpaceChar (c : Char) : Bool :=
  c == ' ' || c == '\t' || c == '\n' || c == '\r' ||
  c == Char.ofNat 11 || c == Char.ofNat 12

/-- The character class `[A-Za-z\s\'-]` of the alias regex. -/
def isTermChar (c : Char) : Bool :=
  c.isAlpha || isSpaceChar c || c == Char.ofNat 39 || c == '-'

/-- Try acronym lengths `u, u-1, …, 1` (greedy `[A-Z]{1,5}` with
backtracking): `q` is the index of `'('`; all candidate characters are
already known to be upper-case, so only the closing `')'` is checked.
Returns the accepted acronym length. -/
def tryAcrLen (s : Str) (q : Nat) : Nat → Option Nat
  | 0 => none
  | u + 1 =>
    if charAt s (q + 1 + (u + 1)) == some ')' then some (u + 1)
    else tryAcrLen s q u

/-- At index `q` require `'('`, then a greedy `[A-Z]{1,5}` and `')'`.
Returns `(acronym start, acronym length)`. -/
def tryParen (s : Str) (q : Nat) : Option (Nat × Nat) :=
  if charAt s q == some '(' then
    (tryAcrLen s q (min (runLength Char.isUpper s (q + 1)) 5)).map
      (fun u => (q + 1, u))
  else none

/-- Greedy `\s*` with backtracking: try the whitespace run length
`m, m-1, …, 0` before requiring the parenthesis.  `pl` is the index
right after group 1. -/
def tryWs (s : Str) (pl : Nat) : Nat → Option (Nat × Nat)
  | 0 => tryParen s pl
  | m + 1 =>
    match tryParen s (pl + (m + 1)) with
    | some r => some r
    | none => tryWs s pl m

/-- Greedy `([A-Za-z\s\'-]+)` with backtracking: try group-1 lengths
`l, l-1, …, 1`.  Returns `(group-1 length, acronym start, acronym length)`. -/
def tryLen (s : Str) (p : Nat) : Nat → Option (Nat × Nat × Nat)
  | 0 => none
  | l + 1 =>
    let pl := p + (l + 1)
    match tryWs s pl (runLength isSpaceChar s pl) with
    | some r => some (l + 1, r.1, r.2)
    | none => tryLen s p l

/-- The regex match attempted at position `p`:
`some (match end, group 1, group 2)` when the pattern matches there. -/
def matchAt (s : Str) (p : Nat) : Option (Nat × Str × Str) :=
  match tryLen s p (runLength isTermChar s p) with
  | some (l, a0, u) => some (a0 + u + 1, sliceL s p (p + l), sliceL s a0 (a0 + u))
  | none => none

/-- `re.finditer` scan: leftmost match wins, the scan resumes after each
match (every match here is non-empty).  `fuel` bounds the recursion;
`s.length + 1` positions always suffice. -/
def findMatches (s : Str) : Nat → Nat → List (Str × Str)
  | 0, _ => []
  | fuel + 1, p =>
    if p > s.length then []
    else
      match matchAt s p with
      | some (e, g1, g2) => (g1, g2) :: findMatches s fuel e
      | none => findMatches s fuel (p + 1)

/-- Python `str.strip()`. -/
def stripWs (s : Str) : Str :=
  ((s.dropWhile isSpaceChar).reverse.dropWhile isSpaceChar).reverse

/-- Python `dict[k] = v`: overwrite in place when the key exists, append
a new key at the end. -/
def dictUpsert (d : List (Str × Str)) (k v : Str) : List (Str × Str) :=
  if d.any (fun kv => decide (kv.1 = k)) then
    d.map (fun kv => if kv.1 = k then (k, v) else kv)
  else d ++ [(k, v)]

/-- `ScientificEntityExtractor.extract_aliases`: scan the text with the
alias regex; each match inserts `group(1).strip() ↦ group(2).strip()`
into the dictionary. -/
def extract_aliases (text : Str) : List (Str × Str) :=
  (findMatches text (text.length + 1) 0).foldl
    (fun d m => dictUpsert d (stripWs m.1) (stripWs m.2)) []

/-! ## BioBERTNER.categorize_entities (extractor.py lines 35-52)

Each raw pipeline entity is a dict; the method reads `entity.get('entity',
'Unknown')` and `entity['word']`, so only those two fields are modelled. -/

/-- One raw token-classification output item. -/
structure BioEnt where
  entity : Option Str
  word : Str
deriving DecidableEq

/-- `entity.get('entity', 'Unknown')`. -/
def labelOf (e : BioEnt) : Str := e.entity.getD (toL "Unknown")

/-- Generic Python-dict membership test on an association list. -/
def hasKeyG {β : Type} (d : List (Str × β)) (k : Str) : Bool :=
  d.any (fun kv => decide (kv.1 = k))

/-- `if k not in d: d[k] = v0` — append a fresh key at the end. -/
def ensureKeyG {β : Type} (d : List (Str × β)) (k : Str) (v0 : β) : List (Str × β) :=
  if hasKeyG d k then d else d ++ [(k, v0)]

/-- `d[k]` with a default for a missing key. -/
def getG {β : Type} (d : List (Str × β)) (k : Str) (v0 : β) : β :=
  ((d.find? (fun kv => decide (kv.1 = k))).map Prod.snd).getD v0

/-- `d[k].append(v)` — the lists of all entries holding key `k` grow (keys
are unique in every dict this file builds, so exactly one entry grows). -/
def appendG {β : Type} (d : List (Str × List β)) (k : Str) (v : β) : List (Str × List β) :=
  d.map (fun kv => if kv.1 = k then (kv.1, kv.2 ++ [v]) else kv)

/-- One iteration of the `categorize_entities` loop. -/
def catStep (d : List (Str × List Str)) (e : BioEnt) : List (Str × List Str) :=
  appendG (ensureKeyG d (labelOf e) []) (labelOf e) e.word

/-- `BioBERTNER.categorize_entities`: group the raw tokens' `word` strings
by their label, in input order, each piece kept as it came. -/
def categorize_entities (entities : List BioEnt) : List (Str × List Str) :=
  entities.foldl catStep []

/-- Modelled from the spec: the sub-word merge policy of §4.4 — adjacent
pieces tagged with the same entity label are joined without an inserted
separator; a label change starts a new span.  (The source's
`categorize_entities` is compared against this.) -/
def specMergeGo (label acc : Str) : List BioEnt → List (Str × Str)
  | [] => [(label, acc)]
  | e :: rest =>
    if labelOf e = label then specMergeGo label (acc ++ e.word) rest
    else (label, acc) :: specMergeGo (labelOf e) e.word rest

/-- Modelled from the spec: word-level spans reconstructed from the
sub-word tokens (see `specMergeGo`). -/
def specMergeSubwords : List BioEnt → List (Str × Str)
  | [] => []
  | e :: rest => specMergeGo (labelOf e) e.word rest

/-- Modelled from the spec: the merged spans of `specMergeSubwords`
grouped by label, the shape `categorize_entities` would hand to the
merger had it merged sub-words as the spec describes. -/
def specCategorized (l : List BioEnt) : List (Str × List Str) :=
  (specMergeSubwords l).foldl
    (fun d p => appendG (ensureKeyG d p.1 []) p.1 p.2) []

/-! ## ScientificEntityExtractor.extract_entities (lines 271-326) -/

/-- One entity of the spaCy document (`doc.ents`): the statistical tagger
and the custom ruler are black boxes, their joint output is a parameter. -/
structure SpacyEnt where
  text : Str
  label : Str
  start_char : Nat
  end_char : Nat
deriving DecidableEq

/-- One stored entity record `{text, start, end, context}`. -/
structure EntityInfo where
  text : Str
  start : Nat
  end_ : Nat
  context : Str
deriving DecidableEq

/-- The mapping category ↦ entity list that `extract_entities` returns. -/
abbrev EntDict := List (Str × List EntityInfo)

/-- `text[max(0, start - 50):min(len(text), end + 50)]` — `Nat`
subtraction supplies the `max(0, ·)` clamp. -/
def contextOf (text : Str) (a b : Nat) : Str :=
  sliceL text (a - 50) (min text.length (b + 50))

/-- `any(e["text"].lower() == t.lower() for e in l)`. -/
def hasDup (l : List EntityInfo) (t : Str) : Bool :=
  decide (∃ e ∈ l, lower e.text = lower t)

/-- One iteration of the spaCy loop: ensure the label's key, then append
the record unless an entity with the same lower-cased text is present. -/
def spacyStep (text : Str) (d : EntDict) (ent : SpacyEnt) : EntDict :=
  if hasDup (getG (ensureKeyG d ent.label []) ent.label []) ent.text then
    ensureKeyG d ent.label []
  else
    appendG (ensureKeyG d ent.label []) ent.label
      ⟨ent.text, ent.start_char, ent.end_char, contextOf text ent.start_char ent.end_char⟩

/-- The spaCy phase of `extract_entities` (lines 282-300). -/
def spacyPhase (text : Str) (docEnts : List SpacyEnt) : EntDict :=
  docEnts.foldl (spacyStep text) []

/-- `[A-Za-z0-9_]`, the word characters of the regex `\b`. -/
def isWordChar (c : Char) : Bool := c.isAlpha || c.isDigit || c == '_'

/-- Whether index `i` holds a word character (out of range: no). -/
def wordAt (s : Str) (i : Nat) : Bool :=
  match charAt s i with
  | some c => isWordChar c
  | none => false

/-- `\b` at position `i`: the two sides disagree on word-ness. -/
def boundaryAt (s : Str) (i : Nat) : Bool :=
  (if i = 0 then false else wordAt s (i - 1)) != wordAt s i

/-- `re.search(r'\b' + re.escape(pat) + r'\b', s)`: the span of the first
word-bounded literal occurrence. -/
def wbSearch (s pat : Str) : Option (Nat × Nat) :=
  ((List.range (s.length + 1)).find? (fun i =>
      boundaryAt s i && decide (sliceL s i (i + pat.length) = pat) &&
      boundaryAt s (i + pat.length))).map
    (fun i => (i, i + pat.length))

/-- One iteration of the BioBERT inner loop (lines 311-324): skip
case-insensitive duplicates, ground the bare string in the text by a
word-bounded search, drop it when it cannot be grounded. -/
def biobertStep (text lab : Str) (d : EntDict) (w : Str) : EntDict :=
  if hasDup (getG d lab []) w then d
  else
    match wbSearch text w with
    | some ab => appendG d lab ⟨w, ab.1, ab.2, contextOf text ab.1 ab.2⟩
    | none => d

/-- One iteration of the BioBERT outer loop (lines 307-324). -/
def biobertCat (text : Str) (d : EntDict) (kv : Str × List Str) : EntDict :=
  kv.2.foldl (biobertStep text kv.1) (ensureKeyG d kv.1 [])

/-- `ScientificEntityExtractor.extract_entities`: the spaCy phase, then —
when BioBERT is in use — its categorized tokens merged in. -/
def extract_entities (text : Str) (docEnts : List SpacyEnt)
    (bioEnts : List BioEnt) (use_biobert : Bool) : EntDict :=
  let d := spacyPhase text docEnts
  if use_biobert then (categorize_entities bioEnts).foldl (biobertCat text) d
  else d

/-! ## ScientificEntityExtractor.__init__ (lines 16-69, extractor.py 8-19)

`BioBERTNER(device=device)` is called with no `try`, so a load failure
propagates out of the constructor; only the relation-extraction pipeline
load is guarded by `try/except` with a fallback model.  Fallible loads
are `Except` values. -/

/-- The constructed extractor's handles: the optional BioBERT adapter and
which relation model loaded (`true` = the specific model, `false` = the
general fallback). -/
structure ExtractorState where
  use_biobert : Bool
  biobert_ner : Option Unit
  relation_specific : Bool
deriving DecidableEq

/-- The `try/except` of lines 54-69: a failed specific-model load falls
back to the general model. -/
def relExtractorOf (relLoad : Except Str Unit) : Bool :=
  match relLoad with
  | .ok _ => true
  | .error _ => false

/-- `ScientificEntityExtractor.__init__` restricted to its fallible model
loads: when `use_biobert` is set, the BioBERT load's failure propagates. -/
def initExtractor (use_biobert : Bool) (biobertLoad : Except Str Unit)
    (relLoad : Except Str Unit) : Except Str ExtractorState :=
  if use_biobert then
    match biobertLoad with
    | .error e => .error e
    | .ok _ => .ok ⟨true, some (), relExtractorOf relLoad⟩
  else .ok ⟨false, none, relExtractorOf relLoad⟩

/-! ## Acronym category inference (_create_scientific_term_ruler, lines 251-266) -/

/-- Python `needle in hay` on strings: some contiguous slice equals the
needle (an empty needle always occurs). -/
def occursIn (needle hay : Str) : Bool :=
  (List.range (hay.length + 1)).any
    (fun i => decide (sliceL hay i (i + needle.length) = needle))

/-- Keywords of the `DISEASE` branch. -/
def diseaseKeywords : List Str := [toL "disease", toL "disorder", toL "syndrome"]

/-- Keywords of the `SYMPTOM` branch. -/
def symptomKeywords : List Str := [toL "symptom", toL "sign", toL "deficit"]

/-- Keywords of the `PROTEIN` branch. -/
def proteinKeywords : List Str := [toL "protein", toL "peptide", toL "enzyme"]

/-- Keywords of the `BRAIN_REGION` branch. -/
def regionKeywords : List Str := [toL "cortex", toL "lobe", toL "brain", toL "nucleus"]

/-- `any(k in lf for k in ks)`. -/
def keywordHit (ks : List Str) (lf : Str) : Bool := ks.any (fun k => occursIn k lf)

/-- Lines 253-262: the entity type of an acronym's expansion, inferred
from its full form by short-circuited keyword tests in fixed order. -/
def inferAcronymCategory (full_form : Str) : Str :=
  if keywordHit diseaseKeywords (lower full_form) then toL "DISEASE"
  else if keywordHit symptomKeywords (lower full_form) then toL "SYMPTOM"
  else if keywordHit proteinKeywords (lower full_form) then toL "PROTEIN"
  else if keywordHit regionKeywords (lower full_form) then toL "BRAIN_REGION"
  else toL "ACRONYM"

/-- One ruler pattern `{"label": …, "pattern": [{"LOWER": …}]}`. -/
structure RulerPattern where
  label : Str
  tokenLowers : List Str
deriving DecidableEq

/-- Lines 252-266: the pattern generated for each acronym gazetteer entry
`(acronym, full_form)`. -/
def acronymPatterns (acronyms : List (Str × Str)) : List RulerPattern :=
  acronyms.map (fun af => ⟨inferAcronymCategory af.2, [lower af.1]⟩)

/-! ## extract_relationships (lines 350-413) -/

/-- One flattened tuple `(ent["text"], ent["start"], ent["end"], category)`. -/
structure EntTup where
  text : Str
  start : Nat
  end_ : Nat
  cat : Str
deriving DecidableEq

/-- One relationship record (lines 402-410); the classifier's score is a
rational. -/
structure Relationship where
  entity1 : Str
  entity1_type : Str
  entity2 : Str
  entity2_type : Str
  relation : Str
  confidence : ℚ
  context : Str
deriving DecidableEq

/-- `entities.items()` flattened in insertion order (lines 370-373). -/
def flattenEntities (d : EntDict) : List EntTup :=
  d.foldl (fun acc kv => acc ++ kv.2.map (fun e => ⟨e.text, e.start, e.end_, kv.1⟩)) []

/-- Stable insertion: `e` goes after every element whose start is `≤` its
own. -/
def insertByStart (e : EntTup) : List EntTup → List EntTup
  | [] => [e]
  | f :: fs => if e.start < f.start then e :: f :: fs else f :: insertByStart e fs

/-- `all_entities.sort(key=lambda x: x[1])`: Python's stable ascending
sort by start offset. -/
def sortByStart (l : List EntTup) : List EntTup :=
  l.foldl (fun acc e => insertByStart e acc) []

/-- The ordered pairs `(i, j)` with `i < j` in loop order (lines 382-383). -/
def orderedPairs {α : Type} : List α → List (α × α)
  | [] => []
  | x :: xs => xs.map (fun y => (x, y)) ++ orderedPairs xs

/-- The probe string `f"{e1} [SEP] {between} [SEP] {e2}"` (lines 392-395). -/
def sampleOf (text : Str) (e1 e2 : EntTup) : Str :=
  e1.text ++ toL " [SEP] " ++ sliceL text e1.end_ e2.start ++ toL " [SEP] " ++ e2.text

/-- Lines 387-411 for one candidate pair: skip it when the gap exceeds
200 characters (a signed comparison: Python ints), classify the probe,
keep the result only when its score exceeds `0.7`. -/
def processPair (text : Str) (classify : Str → Str × ℚ) (e1 e2 : EntTup) :
    Option Relationship :=
  if (e2.start : Int) - (e1.end_ : Int) > 200 then none
  else if (classify (sampleOf text e1 e2)).2 > 7 / 10 then
    some ⟨e1.text, e1.cat, e2.text, e2.cat, (classify (sampleOf text e1 e2)).1,
          (classify (sampleOf text e1 e2)).2,
          sliceL text (e1.start - 20) (min text.length (e2.end_ + 20))⟩
  else none

/-- The double loop of lines 382-411 over an already sorted list. -/
def pairScan (text : Str) (classify : Str → Str × ℚ) (l : List EntTup) :
    List Relationship :=
  (orderedPairs l).filterMap (fun p => processPair text classify p.1 p.2)

/-- Flatten, sort by start, scan the pairs. -/
def relationshipsFrom (text : Str) (classify : Str → Str × ℚ) (all : List EntTup) :
    List Relationship :=
  pairScan text classify (sortByStart all)

/-- `ScientificEntityExtractor.extract_relationships`: re-derives the
entities, extracts the aliases and returns both. -/
def extract_relationships (text : Str) (docEnts : List SpacyEnt)
    (bioEnts : List BioEnt) (use_biobert : Bool) (classify : Str → Str × ℚ) :
    List Relationship × List (Str × Str) :=
  (relationshipsFrom text classify
     (flattenEntities (extract_entities text docEnts bioEnts use_biobert)),
   extract_aliases text)

/-! ## Concrete inputs used by the witnesses and counterexamples -/

/-- Two sub-word pieces of one word, both tagged `B-Protein`. -/
def c2Demo : List BioEnt :=
  [⟨some (toL "B-Protein"), toL "am"⟩, ⟨some (toL "B-Protein"), toL "##yloid"⟩]

/-- The end-to-end scenario text of the spec (§8). -/
def c3Text : Str :=
  toL "Tau and amyloid beta are both implicated in Alzheimer's disease (AD)."

/-- A small text with two entities 7 characters apart. -/
def demoText : Str := toL "tau binds tau2"

/-- The spaCy output assumed for `demoText`. -/
def demoDocEnts : List SpacyEnt :=
  [⟨toL "tau", toL "PROTEIN", 0, 3⟩, ⟨toL "tau2", toL "PROTEIN", 10, 14⟩]

/-- A relation classifier that always answers `RELATED` at score `0.9`. -/
def demoClassify : Str → Str × ℚ := fun _ => (toL "RELATED", 9 / 10)

/-- The record `extract_entities` builds for `tau` in `demoText`. -/
def tauInfo : EntityInfo := ⟨toL "tau", 0, 3, toL "tau binds tau2"⟩

/-- The record `extract_entities` builds for `tau2` in `demoText`. -/
def tau2Info : EntityInfo := ⟨toL "tau2", 10, 14, toL "tau binds tau2"⟩

/-- The relationship `extract_relationships` returns on `demoText` with
`demoClassify`. -/
def demoRel : Relationship :=
  ⟨toL "tau", toL "PROTEIN", toL "tau2", toL "PROTEIN", toL "RELATED", 9 / 10,
   toL "tau binds tau2"⟩

/-- The flattened tuple for `tau` in `demoText`. -/
def tupA : EntTup := ⟨toL "tau", 0, 3, toL "PROTEIN"⟩

/-- The flattened tuple for `tau2` in `demoText`. -/
def tupB : EntTup := ⟨toL "tau2", 10, 14, toL "PROTEIN"⟩

/-- Text holding a nested entity pair. -/
def overlapText : Str := toL "amyloid beta"

/-- The outer mention, spanning the whole of `overlapText`. -/
def eO1 : EntTup := ⟨toL "amyloid beta", 0, 12, toL "PROTEIN"⟩

/-- The nested mention: it starts before `eO1` ends. -/
def eO2 : EntTup := ⟨toL "beta", 8, 12, toL "PROTEIN"⟩

/-! ## Invariant definitions -/

/-- No two entries of the association list share a key. -/
def keysDistinct {β : Type} (d : List (Str × β)) : Prop :=
  d.Pairwise (fun p q => p.1 ≠ q.1)

/-- The `word` strings of the input tokens carrying label `k`, in order. -/
def wordsOf (l : List BioEnt) (k : Str) : List Str :=
  (l.filter (fun e => decide (labelOf e = k))).map BioEnt.word

/-- No two records of one category list agree on lower-cased text. -/
def EntListOk (l : List EntityInfo) : Prop :=
  l.Pairwise (fun a b => lower a.text ≠ lower b.text)

/-- The dictionary invariant of `extract_entities`: distinct keys, and
every category's list is duplicate-free under `lower`. -/
def DictOk (d : EntDict) : Prop :=
  keysDistinct d ∧ ∀ kv ∈ d, EntListOk kv.2

/-- Every stored record's context is the clamped ±50 window around its
own offsets. -/
def CtxOk (text : Str) (d : EntDict) : Prop :=
  ∀ kv ∈ d, ∀ e ∈ kv.2, e.context = contextOf text e.start e.end_

/-! ## Dictionary lemmas -/

theorem hasKeyG_iff {β : Type} (d : List (Str × β)) (k : Str) :
    hasKeyG d k = true ↔ ∃ kv ∈ d, kv.1 = k := by
  unfold hasKeyG
  rw [List.any_eq_true]
  constructor
  · rintro ⟨kv, hm, hkv⟩
    exact ⟨kv, hm, of_decide_eq_true hkv⟩
  · rintro ⟨kv, hm, hkv⟩
    exact ⟨kv, hm, decide_eq_true hkv⟩

theorem getG_cons {β : Type} (x : Str × β) (d : List (Str × β)) (k : Str) (v0 : β) :
    getG (x :: d) k v0 = if x.1 = k then x.2 else getG d k v0 := by
  unfold getG
  by_cases h : x.1 = k
  · rw [List.find?_cons_of_pos _ (by simp [h]), if_pos h]
    rfl
  · rw [List.find?_cons_of_neg _ (by simp [h]), if_neg h]

theorem getG_eq_of_mem {β : Type} {d : List (Str × β)} {kv : Str × β}
    (hd : keysDistinct d) (hm : kv ∈ d) (v0 : β) : getG d kv.1 v0 = kv.2 := by
  induction d with
  | nil => cases hm
  | cons x rest ih =>
    rcases List.mem_cons.mp hm with rfl | hm'
    · simp [getG_cons]
    · have hx : x.1 ≠ kv.1 := (List.pairwise_cons.mp hd).1 kv hm'
      rw [getG_cons, if_neg hx]
      exact ih (List.pairwise_cons.mp hd).2 hm'

theorem keysDistinct_ensureKeyG {β : Type} {d : List (Str × β)} (k : Str) (v0 : β)
    (hd : keysDistinct d) : keysDistinct (ensureKeyG d k v0) := by
  unfold ensureKeyG
  split
  · exact hd
  · next hmiss =>
    refine List.pairwise_append.mpr ⟨hd, List.pairwise_singleton _ _, ?_⟩
    intro kv hkv b hb
    have hb' : b = (k, v0) := List.mem_singleton.mp hb
    subst hb'
    intro hcontra
    exact absurd ((hasKeyG_iff d k).mpr ⟨kv, hkv, hcontra⟩)
      (by simpa using hmiss)

theorem mem_ensureKeyG {β : Type} {d : List (Str × β)} {k : Str} {v0 : β}
    {kv : Str × β} (h : kv ∈ ensureKeyG d k v0) : kv ∈ d ∨ kv = (k, v0) := by
  unfold ensureKeyG at h
  split at h
  · exact Or.inl h
  · rcases List.mem_append.mp h with h' | h'
    · exact Or.inl h'
    · exact Or.inr (List.mem_singleton.mp h')

theorem hasKeyG_ensureKeyG {β : Type} (d : List (Str × β)) (k : Str) (v0 : β) :
    hasKeyG (ensureKeyG d k v0) k = true := by
  unfold ensureKeyG
  split
  · next h => exact h
  · exact (hasKeyG_iff _ k).mpr ⟨(k, v0), List.mem_append_right _ (by simp), rfl⟩

theorem appendG_fst {β : Type} (k : Str) (v : β) (kv : Str × List β) :
    (if kv.1 = k then (kv.1, kv.2 ++ [v]) else kv).1 = kv.1 := by
  split <;> rfl

theorem keysDistinct_appendG {β : Type} {d : List (Str × List β)} (k : Str) (v : β)
    (hd : keysDistinct d) : keysDistinct (appendG d k v) := by
  unfold appendG
  refine List.pairwise_map.mpr (hd.imp ?_)
  intro p q h
  rw [appendG_fst, appendG_fst]
  exact h

theorem mem_appendG {β : Type} {d : List (Str × List β)} {k : Str} {v : β}
    {kv : Str × List β} (h : kv ∈ appendG d k v) :
    ∃ kv0 ∈ d, kv = if kv0.1 = k then (kv0.1, kv0.2 ++ [v]) else kv0 := by
  rcases List.mem_map.mp h with ⟨kv0, hm, he⟩
  exact ⟨kv0, hm, he.symm⟩

theorem getG_append_nil {β : Type} :
    ∀ (d : List (Str × List β)) (k k' : Str),
      getG (d ++ [(k, ([] : List β))]) k' [] = getG d k' [] := by
  intro d k k'
  induction d with
  | nil =>
    by_cases h : k = k'
    · rw [List.nil_append, getG_cons, if_pos h]
      rfl
    · rw [List.nil_append, getG_cons, if_neg h]
  | cons x rest ih =>
    rw [List.cons_append, getG_cons, getG_cons, ih]

theorem getG_ensureKeyG_nil {β : Type} (d : List (Str × List β)) (k k' : Str) :
    getG (ensureKeyG d k ([] : List β)) k' [] = getG d k' [] := by
  unfold ensureKeyG
  split
  · rfl
  · exact getG_append_nil d k k'

theorem getG_appendG_self {β : Type} {d : List (Str × List β)} {k : Str} (v : β)
    (hk : hasKeyG d k = true) :
    getG (appendG d k v) k [] = getG d k [] ++ [v] := by
  induction d with
  | nil => simp [hasKeyG] at hk
  | cons x rest ih =>
    by_cases h : x.1 = k
    · simp [appendG, getG_cons, h]
    · have hk' : hasKeyG rest k = true := by
        rcases (hasKeyG_iff _ k).mp hk with ⟨kv, hm, hkv⟩
        rcases List.mem_cons.mp hm with rfl | hm'
        · exact absurd hkv h
        · exact (hasKeyG_iff _ k).mpr ⟨kv, hm', hkv⟩
      simpa [appendG, getG_cons, h] using ih hk'

theorem getG_appendG_other {β : Type} (d : List (Str × List β)) {k k' : Str} (v : β)
    (hne : k' ≠ k) : getG (appendG d k v) k' [] = getG d k' [] := by
  induction d with
  | nil => rfl
  | cons x rest ih =>
    show getG ((if x.1 = k then (x.1, x.2 ++ [v]) else x) :: appendG rest k v) k' []
        = getG (x :: rest) k' []
    rw [getG_cons, getG_cons, appendG_fst, ih]
    by_cases h' : x.1 = k'
    · have hxk : x.1 ≠ k := by rw [h']; exact hne
      rw [if_pos h', if_pos h', if_neg hxk]
    · rw [if_neg h', if_neg h']

/-! ## Fold preservation -/

theorem foldl_preserves {α σ : Type} {P : σ → Prop} {f : σ → α → σ}
    (h : ∀ s a, P s → P (f s a)) :
    ∀ (l : List α) (s : σ), P s → P (l.foldl f s) := by
  intro l
  induction l with
  | nil => intro s hs; exact hs
  | cons a t ih => intro s hs; exact ih (f s a) (h s a hs)

/-! ## categorize_entities groups the raw words by label (C2) -/

theorem keysDistinct_catStep {d : List (Str × List Str)} (e : BioEnt)
    (hd : keysDistinct d) : keysDistinct (catStep d e) :=
  keysDistinct_appendG _ _ (keysDistinct_ensureKeyG _ _ hd)

theorem getG_catStep (d : List (Str × List Str)) (e : BioEnt) (k : Str) :
    getG (catStep d e) k [] =
      if labelOf e = k then getG d k [] ++ [e.word] else getG d k [] := by
  unfold catStep
  by_cases h : labelOf e = k
  · rw [if_pos h, ← h,
      getG_appendG_self e.word (hasKeyG_ensureKeyG d (labelOf e) []),
      getG_ensureKeyG_nil]
  · rw [if_neg h, getG_appendG_other _ e.word (fun hc => h hc.symm),
      getG_ensureKeyG_nil]

theorem wordsOf_cons (e : BioEnt) (l : List BioEnt) (k : Str) :
    wordsOf (e :: l) k =
      if labelOf e = k then e.word :: wordsOf l k else wordsOf l k := by
  unfold wordsOf
  by_cases h : labelOf e = k
  · rw [List.filter_cons_of_pos (by simp [h]), List.map_cons, if_pos h]
  · rw [List.filter_cons_of_neg (by simp [h]), if_neg h]

theorem catFold_spec :
    ∀ (l : List BioEnt) (d : List (Str × List Str)), keysDistinct d →
      keysDistinct (l.foldl catStep d) ∧
      ∀ kv ∈ l.foldl catStep d, kv.2 = getG d kv.1 [] ++ wordsOf l kv.1 := by
  intro l
  induction l with
  | nil =>
    intro d hd
    refine ⟨hd, ?_⟩
    intro kv hm
    rw [List.foldl_nil] at hm
    rw [getG_eq_of_mem hd hm []]
    simp [wordsOf]
  | cons e t ih =>
    intro d hd
    rw [List.foldl_cons]
    obtain ⟨hk, hval⟩ := ih (catStep d e) (keysDistinct_catStep e hd)
    refine ⟨hk, ?_⟩
    intro kv hm
    rw [hval kv hm, getG_catStep, wordsOf_cons]
    by_cases h : labelOf e = kv.1
    · rw [if_pos h, if_pos h, List.append_assoc]
      rfl
    · rw [if_neg h, if_neg h]

/-! ## The dedup invariant (C6) -/

theorem hasDup_false_iff (l : List EntityInfo) (t : Str) :
    hasDup l t = false ↔ ∀ e ∈ l, lower e.text ≠ lower t := by
  unfold hasDup
  rw [decide_eq_false_iff_not]
  push_neg
  rfl

theorem DictOk_ensureKeyG {d : EntDict} (k : Str) (hd : DictOk d) :
    DictOk (ensureKeyG d k []) := by
  refine ⟨keysDistinct_ensureKeyG k [] hd.1, ?_⟩
  intro kv hm
  rcases mem_ensureKeyG hm with h | h
  · exact hd.2 kv h
  · rw [h]
    exact List.Pairwise.nil

theorem DictOk_appendG {d : EntDict} {k : Str} {v : EntityInfo} (hd : DictOk d)
    (hdup : hasDup (getG d k []) v.text = false) : DictOk (appendG d k v) := by
  refine ⟨keysDistinct_appendG k v hd.1, ?_⟩
  intro kv hm
  rcases mem_appendG hm with ⟨kv0, hm0, he⟩
  by_cases h : kv0.1 = k
  · rw [he, if_pos h]
    have hget : getG d k [] = kv0.2 := by
      rw [← h]
      exact getG_eq_of_mem hd.1 hm0 []
    have hforall := (hasDup_false_iff _ _).mp hdup
    rw [hget] at hforall
    unfold EntListOk
    refine List.pairwise_append.mpr ⟨hd.2 kv0 hm0, List.pairwise_singleton _ _, ?_⟩
    intro a ha b hb
    rw [List.mem_singleton.mp hb]
    exact hforall a ha
  · rw [he, if_neg h]
    exact hd.2 kv0 hm0

theorem DictOk_spacyStep (text : Str) {d : EntDict} (ent : SpacyEnt)
    (hd : DictOk d) : DictOk (spacyStep text d ent) := by
  have h1 : DictOk (ensureKeyG d ent.label []) := DictOk_ensureKeyG _ hd
  unfold spacyStep
  split
  · exact h1
  · next hdup => exact DictOk_appendG h1 (Bool.not_eq_true _ ▸ hdup)

theorem DictOk_biobertStep (text lab : Str) {d : EntDict} (w : Str)
    (hd : DictOk d) : DictOk (biobertStep text lab d w) := by
  unfold biobertStep
  split
  · exact hd
  · next hdup =>
    split
    · exact DictOk_appendG hd (Bool.not_eq_true _ ▸ hdup)
    · exact hd

theorem DictOk_biobertCat (text : Str) {d : EntDict} (kv : Str × List Str)
    (hd : DictOk d) : DictOk (biobertCat text d kv) := by
  unfold biobertCat
  exact foldl_preserves (fun s a hs => DictOk_biobertStep text kv.1 a hs) kv.2
    (ensureKeyG d kv.1 []) (DictOk_ensureKeyG kv.1 hd)

theorem DictOk_extract_entities (text : Str) (docEnts : List SpacyEnt)
    (bioEnts : List BioEnt) (ub : Bool) :
    DictOk (extract_entities text docEnts bioEnts ub) := by
  have base : DictOk (spacyPhase text docEnts) := by
    unfold spacyPhase
    exact foldl_preserves (fun s a hs => DictOk_spacyStep text a hs) docEnts []
      ⟨List.Pairwise.nil, fun kv h => absurd h (List.not_mem_nil kv)⟩
  unfold extract_entities
  split
  · exact foldl_preserves (fun s a hs => DictOk_biobertCat text a hs) _ _ base
  · exact base

/-! ## The context invariant (C7) -/

theorem CtxOk_ensureKeyG (text : Str) {d : EntDict} (k : Str)
    (h : CtxOk text d) : CtxOk text (ensureKeyG d k []) := by
  intro kv hm e he
  rcases mem_ensureKeyG hm with h' | h'
  · exact h kv h' e he
  · rw [h'] at he
    exact absurd he (List.not_mem_nil e)

theorem CtxOk_appendG (text : Str) {d : EntDict} {k : Str} {v : EntityInfo}
    (h : CtxOk text d) (hv : v.context = contextOf text v.start v.end_) :
    CtxOk text (appendG d k v) := by
  intro kv hm e he
  rcases mem_appendG hm with ⟨kv0, hm0, hkv⟩
  by_cases hk : kv0.1 = k
  · rw [hkv, if_pos hk] at he
    rcases List.mem_append.mp he with h' | h'
    · exact h kv0 hm0 e h'
    · rw [List.mem_singleton.mp h']
      exact hv
  · rw [hkv, if_neg hk] at he
    exact h kv0 hm0 e he

theorem CtxOk_spacyStep (text : Str) {d : EntDict} (ent : SpacyEnt)
    (h : CtxOk text d) : CtxOk text (spacyStep text d ent) := by
  unfold spacyStep
  split
  · exact CtxOk_ensureKeyG text _ h
  · exact CtxOk_appendG text (CtxOk_ensureKeyG text _ h) rfl

theorem CtxOk_biobertStep (text lab : Str) {d : EntDict} (w : Str)
    (h : CtxOk text d) : CtxOk text (biobertStep text lab d w) := by
  unfold biobertStep
  split
  · exact h
  · split
    · exact CtxOk_appendG text h rfl
    · exact h

theorem CtxOk_biobertCat (text : Str) {d : EntDict} (kv : Str × List Str)
    (h : CtxOk text d) : CtxOk text (biobertCat text d kv) := by
  unfold biobertCat
  exact foldl_preserves (fun s a hs => CtxOk_biobertStep text kv.1 a hs) kv.2
    (ensureKeyG d kv.1 []) (CtxOk_ensureKeyG text kv.1 h)

theorem CtxOk_extract_entities (text : Str) (docEnts : List SpacyEnt)
    (bioEnts : List BioEnt) (ub : Bool) :
    CtxOk text (extract_entities text docEnts bioEnts ub) := by
  have base : CtxOk text (spacyPhase text docEnts) := by
    unfold spacyPhase
    exact foldl_preserves (fun s a hs => CtxOk_spacyStep text a hs) docEnts []
      (fun kv h => absurd h (List.not_mem_nil kv))
  unfold extract_entities
  split
  · exact foldl_preserves (fun s a hs => CtxOk_biobertCat text a hs) _ _ base
  · exact base

/-- Every Python slice is a contiguous piece of its text. -/
theorem sliceL_split (s : Str) (a b : Nat) :
    s.take a ++ sliceL s a b ++ (s.drop a).drop (b - a) = s := by
  unfold sliceL
  rw [List.append_assoc, List.take_append_drop, List.take_append_drop]

/-! ## Sorting and the pair scan (C4, C5, C10) -/

theorem mem_insertByStart {x e : EntTup} :
    ∀ {l : List EntTup}, x ∈ insertByStart e l → x = e ∨ x ∈ l := by
  intro l
  induction l with
  | nil =>
    intro h
    exact Or.inl (List.mem_singleton.mp h)
  | cons f fs ih =>
    intro h
    unfold insertByStart at h
    split at h
    · rcases List.mem_cons.mp h with h' | h'
      · exact Or.inl h'
      · exact Or.inr h'
    · rcases List.mem_cons.mp h with h' | h'
      · exact Or.inr (List.mem_cons.mpr (Or.inl h'))
      · rcases ih h' with h'' | h''
        · exact Or.inl h''
        · exact Or.inr (List.mem_cons.mpr (Or.inr h''))

theorem pairwise_insertByStart {e : EntTup} :
    ∀ {l : List EntTup}, l.Pairwise (fun a b => a.start ≤ b.start) →
      (insertByStart e l).Pairwise (fun a b => a.start ≤ b.start) := by
  intro l
  induction l with
  | nil => intro _; exact List.pairwise_singleton _ _
  | cons f fs ih =>
    intro hp
    obtain ⟨hf, hfs⟩ := List.pairwise_cons.mp hp
    unfold insertByStart
    split
    · next hlt =>
      refine List.pairwise_cons.mpr ⟨?_, hp⟩
      intro b hb
      rcases List.mem_cons.mp hb with rfl | hb'
      · exact Nat.le_of_lt hlt
      · exact Nat.le_trans (Nat.le_of_lt hlt) (hf b hb')
    · next hge =>
      refine List.pairwise_cons.mpr ⟨?_, ih hfs⟩
      intro b hb
      rcases mem_insertByStart hb with rfl | hb'
      · exact Nat.le_of_not_lt hge
      · exact hf b hb'

theorem pairwise_sortByStart (l : List EntTup) :
    (sortByStart l).Pairwise (fun a b => a.start ≤ b.start) := by
  unfold sortByStart
  exact foldl_preserves (fun s a hs => pairwise_insertByStart hs) l []
    List.Pairwise.nil

theorem orderedPairs_rel {α : Type} {R : α → α → Prop} :
    ∀ {l : List α} {a b : α}, l.Pairwise R → (a, b) ∈ orderedPairs l → R a b := by
  intro l
  induction l with
  | nil => intro a b _ h; cases h
  | cons x xs ih =>
    intro a b hp hm
    unfold orderedPairs at hm
    rcases List.mem_append.mp hm with h | h
    · rcases List.mem_map.mp h with ⟨y, hy, he⟩
      have h1 : x = a := congrArg Prod.fst he
      have h2 : y = b := congrArg Prod.snd he
      subst h1
      subst h2
      exact (List.pairwise_cons.mp hp).1 _ hy
    · exact ih (List.pairwise_cons.mp hp).2 h

theorem processPair_eq_some {text : Str} {classify : Str → Str × ℚ}
    {e1 e2 : EntTup} {r : Relationship}
    (h : processPair text classify e1 e2 = some r) :
    (e2.start : Int) - (e1.end_ : Int) ≤ 200 ∧
    (classify (sampleOf text e1 e2)).2 > 7 / 10 ∧
    r = ⟨e1.text, e1.cat, e2.text, e2.cat, (classify (sampleOf text e1 e2)).1,
         (classify (sampleOf text e1 e2)).2,
         sliceL text (e1.start - 20) (min text.length (e2.end_ + 20))⟩ := by
  unfold processPair at h
  split at h
  · exact absurd h (by simp)
  · next hgap =>
    split at h
    · next hscore =>
      injection h with h'
      exact ⟨not_lt.mp hgap, hscore, h'.symm⟩
    · exact absurd h (by simp)

theorem processPair_none_of_le {text : Str} {classify : Str → Str × ℚ}
    {e1 e2 : EntTup} (h : (classify (sampleOf text e1 e2)).2 ≤ 7 / 10) :
    processPair text classify e1 e2 = none := by
  unfold processPair
  split
  · rfl
  · rw [if_neg (not_lt.mpr h)]

theorem filterMap_singleton_some {α β : Type} (f : α → Option β) (a : α) (b : β)
    (h : f a = some b) : List.filterMap f [a] = [b] := by
  rw [List.filterMap_cons, h]
  rfl

theorem mem_relationships {text : Str} {docEnts : List SpacyEnt}
    {bioEnts : List BioEnt} {ub : Bool} {classify : Str → Str × ℚ}
    {r : Relationship}
    (h : r ∈ (extract_relationships text docEnts bioEnts ub classify).1) :
    ∃ p, p ∈ orderedPairs (sortByStart (flattenEntities
        (extract_entities text docEnts bioEnts ub))) ∧
      processPair text classify p.1 p.2 = some r := by
  unfold extract_relationships relationshipsFrom pairScan at h
  exact List.mem_filterMap.mp h

theorem demoRel_processPair : processPair demoText demoClassify tupA tupB = some demoRel := by
  unfold processPair
  rw [if_neg (by decide), if_pos (by norm_num [demoClassify])]
  rfl

theorem demoRel_mem :
    demoRel ∈ (extract_relationships demoText demoDocEnts [] false demoClassify).1 := by
  have harg : orderedPairs (sortByStart (flattenEntities
      (extract_entities demoText demoDocEnts [] false))) = [(tupA, tupB)] := rfl
  show demoRel ∈ List.filterMap (fun p => processPair demoText demoClassify p.1 p.2)
    (orderedPairs (sortByStart (flattenEntities
      (extract_entities demoText demoDocEnts [] false))))
  rw [harg, filterMap_singleton_some
    (fun p : EntTup × EntTup => processPair demoText demoClassify p.1 p.2)
    (tupA, tupB) demoRel demoRel_processPair]
  exact List.mem_singleton.mpr rfl

/-! ## The claims -/

/-- C1 (counterexample): with `use_biobert = True` and the BioBERT load
failing, construction propagates the failure instead of continuing —
`BioBERTNER(device=device)` is called outside any `try`. -/
theorem c1_biobert_load_failure_raises :
    initExtractor true (Except.error (toL "model unavailable")) (Except.ok ()) =
      Except.error (toL "model unavailable") := rfl

/-- C1 (amended): a BioBERT load failure makes construction raise when
`use_biobert = True`.  Only with `use_biobert = False` does the extractor
proceed without the biomedical source, and then `extract_entities`
returns exactly the spaCy-phase (rule- and general-NER-derived) entities;
a relation-model load failure is, by contrast, non-fatal. -/
theorem c1_graceful_degradation_amended :
    ∀ (e : Str) (relLoad : Except Str Unit) (text : Str)
      (docEnts : List SpacyEnt) (bioEnts : List BioEnt),
      initExtractor true (Except.error e) relLoad = Except.error e ∧
      initExtractor false (Except.error e) relLoad =
        Except.ok ⟨false, none, relExtractorOf relLoad⟩ ∧
      initExtractor false (Except.ok ()) (Except.error e) =
        Except.ok ⟨false, none, false⟩ ∧
      extract_entities text docEnts bioEnts false = spacyPhase text docEnts := by
  intro e relLoad text docEnts bioEnts
  exact ⟨rfl, rfl, rfl, rfl⟩

/-- C2 (counterexample): two adjacent sub-word pieces with the same label
are handed over as two separate entries, not concatenated into one span
as the spec's merge policy (modelled by `specCategorized`) demands. -/
theorem c2_no_subword_merge :
    categorize_entities c2Demo = [(toL "B-Protein", [toL "am", toL "##yloid"])] ∧
    specCategorized c2Demo = [(toL "B-Protein", [toL "am##yloid"])] :=
  ⟨rfl, rfl⟩

/-- C2 (amended): the output handed to the merger is the raw sub-word
tokens grouped by entity label — for every label of the mapping, its word
list is exactly the `word` field of each input token with that label, in
input order, with no concatenation of adjacent pieces. -/
theorem c2_subword_grouping_amended :
    ∀ (entities : List BioEnt) (kv : Str × List Str),
      kv ∈ categorize_entities entities → kv.2 = wordsOf entities kv.1 := by
  intro l kv hm
  have h := (catFold_spec l [] List.Pairwise.nil).2 kv hm
  rw [h]
  rfl

theorem c2_subword_grouping_witness :
    ((toL "B-Protein", [toL "am", toL "##yloid"]) : Str × List Str).2 =
      wordsOf c2Demo ((toL "B-Protein", [toL "am", toL "##yloid"]) : Str × List Str).1 :=
  c2_subword_grouping_amended c2Demo (toL "B-Protein", [toL "am", toL "##yloid"])
    (by decide)

/-- C3 (counterexample): on the end-to-end text the produced alias map
holds no entry with term "Alzheimer's disease" — the greedy term capture
reaches back to the start of the sentence. -/
theorem c3_alias_not_term_only :
    ¬ ((toL "Alzheimer's disease", toL "AD") ∈ extract_aliases c3Text) := by
  decide

/-- C3 (amended): the alias mapping contains exactly one entry, mapping
the whole run of letters/spaces/apostrophes preceding "(AD)" — "Tau and
amyloid beta are both implicated in Alzheimer's disease" — to "AD". -/
theorem c3_alias_greedy_amended :
    extract_aliases c3Text =
      [(toL "Tau and amyloid beta are both implicated in Alzheimer's disease",
        toL "AD")] := rfl

/-- C4: every relationship returned by `extract_relationships` has
confidence strictly greater than 0.70, and a candidate pair whose
classifier top score is at or below the threshold is silently dropped:
its `processPair` yields `none`, so it reaches neither the relationship
list nor any error channel. -/
theorem c4_confidence_floor :
    (∀ (text : Str) (docEnts : List SpacyEnt) (bioEnts : List BioEnt)
        (ub : Bool) (classify : Str → Str × ℚ) (r : Relationship),
        r ∈ (extract_relationships text docEnts bioEnts ub classify).1 →
        r.confidence > 7 / 10) ∧
    (∀ (text : Str) (classify : Str → Str × ℚ) (e1 e2 : EntTup),
        (classify (sampleOf text e1 e2)).2 ≤ 7 / 10 →
        processPair text classify e1 e2 = none) := by
  constructor
  · intro text docEnts bioEnts ub classify r hr
    obtain ⟨p, _, hp⟩ := mem_relationships hr
    obtain ⟨_, hscore, hr'⟩ := processPair_eq_some hp
    rw [hr']
    exact hscore
  · intro text classify e1 e2 h
    exact processPair_none_of_le h

theorem c4_confidence_floor_witness : demoRel.confidence > 7 / 10 :=
  c4_confidence_floor.1 demoText demoDocEnts [] false demoClassify demoRel demoRel_mem

/-- C5: every returned relationship arises from an ordered candidate pair
of the start-sorted entity list whose signed gap (second start minus
first end) is at most 200 characters; the relationship's entity fields
are those of that pair. -/
theorem c5_distance_bound :
    ∀ (text : Str) (docEnts : List SpacyEnt) (bioEnts : List BioEnt)
      (ub : Bool) (classify : Str → Str × ℚ) (r : Relationship),
      r ∈ (extract_relationships text docEnts bioEnts ub classify).1 →
      ∃ e1 e2 : EntTup,
        (e1, e2) ∈ orderedPairs (sortByStart (flattenEntities
          (extract_entities text docEnts bioEnts ub))) ∧
        e1.start ≤ e2.start ∧
        r.entity1 = e1.text ∧ r.entity1_type = e1.cat ∧
        r.entity2 = e2.text ∧ r.entity2_type = e2.cat ∧
        (e2.start : Int) - (e1.end_ : Int) ≤ 200 := by
  intro text docEnts bioEnts ub classify r hr
  obtain ⟨p, hpmem, hp⟩ := mem_relationships hr
  rcases p with ⟨e1, e2⟩
  obtain ⟨hgap, _, hr'⟩ := processPair_eq_some hp
  subst hr'
  exact ⟨e1, e2, hpmem,
    @orderedPairs_rel EntTup (fun a b => a.start ≤ b.start)
      (sortByStart (flattenEntities (extract_entities text docEnts bioEnts ub)))
      e1 e2 (pairwise_sortByStart _) hpmem,
    rfl, rfl, rfl, rfl, hgap⟩

theorem c5_distance_bound_witness :
    ∃ e1 e2 : EntTup,
      (e1, e2) ∈ orderedPairs (sortByStart (flattenEntities
        (extract_entities demoText demoDocEnts [] false))) ∧
      e1.start ≤ e2.start ∧
      demoRel.entity1 = e1.text ∧ demoRel.entity1_type = e1.cat ∧
      demoRel.entity2 = e2.text ∧ demoRel.entity2_type = e2.cat ∧
      (e2.start : Int) - (e1.end_ : Int) ≤ 200 :=
  c5_distance_bound demoText demoDocEnts [] false demoClassify demoRel demoRel_mem

/-- C6: within each category of the mapping `extract_entities` returns,
no two entities have case-insensitively equal surface text; and when a
duplicate is encountered, both insertion steps leave the dictionary
unchanged — the kept first occurrence is neither merged nor updated. -/
theorem c6_dedup_invariant :
    (∀ (text : Str) (docEnts : List SpacyEnt) (bioEnts : List BioEnt)
        (ub : Bool) (kv : Str × List EntityInfo),
        kv ∈ extract_entities text docEnts bioEnts ub →
        kv.2.Pairwise (fun a b => lower a.text ≠ lower b.text)) ∧
    (∀ (text : Str) (d : EntDict) (ent : SpacyEnt),
        hasDup (getG (ensureKeyG d ent.label []) ent.label []) ent.text = true →
        spacyStep text d ent = ensureKeyG d ent.label []) ∧
    (∀ (text lab : Str) (d : EntDict) (w : Str),
        hasDup (getG d lab []) w = true → biobertStep text lab d w = d) := by
  refine ⟨?_, ?_, ?_⟩
  · intro text docEnts bioEnts ub kv hm
    exact (DictOk_extract_entities text docEnts bioEnts ub).2 kv hm
  · intro text d ent h
    unfold spacyStep
    rw [if_pos h]
  · intro text lab d w h
    unfold biobertStep
    rw [if_pos h]

theorem c6_dedup_invariant_witness :
    ((toL "PROTEIN", [tauInfo, tau2Info]) : Str × List EntityInfo).2.Pairwise
      (fun a b => lower a.text ≠ lower b.text) :=
  c6_dedup_invariant.1 demoText demoDocEnts [] false
    (toL "PROTEIN", [tauInfo, tau2Info]) (by decide)

/-- C7: every entity record returned by `extract_entities` carries as
context exactly the slice of the original text from `start - 50` (clamped
at 0) to `min (length text) (end + 50)`; in particular the context is a
contiguous substring of the original text. -/
theorem c7_context_clamp :
    ∀ (text : Str) (docEnts : List SpacyEnt) (bioEnts : List BioEnt) (ub : Bool)
      (kv : Str × List EntityInfo) (e : EntityInfo),
      kv ∈ extract_entities text docEnts bioEnts ub → e ∈ kv.2 →
      e.context = sliceL text (e.start - 50) (min text.length (e.end_ + 50)) ∧
      ∃ pre post : Str, pre ++ e.context ++ post = text := by
  intro text docEnts bioEnts ub kv e hkv he
  have hctx := CtxOk_extract_entities text docEnts bioEnts ub kv hkv e he
  refine ⟨hctx, ?_⟩
  rw [hctx]
  exact ⟨text.take (e.start - 50),
    (text.drop (e.start - 50)).drop (min text.length (e.end_ + 50) - (e.start - 50)),
    sliceL_split text _ _⟩

theorem c7_context_clamp_witness :
    tauInfo.context = sliceL demoText (tauInfo.start - 50)
      (min demoText.length (tauInfo.end_ + 50)) ∧
    ∃ pre post : Str, pre ++ tauInfo.context ++ post = demoText :=
  c7_context_clamp demoText demoDocEnts [] false
    (toL "PROTEIN", [tauInfo, tau2Info]) tauInfo (by decide) (by decide)

/-- C8: the ruler pattern generated for each acronym gazetteer entry is
labelled with `inferAcronymCategory` of its full form, and that category
is decided by case-insensitive keyword-substring tests in the fixed
short-circuit order DISEASE, SYMPTOM, PROTEIN, BRAIN_REGION, defaulting
to ACRONYM — the first matching keyword set wins. -/
theorem c8_acronym_category_order :
    (∀ entries : List (Str × Str), acronymPatterns entries =
      entries.map (fun af => ⟨inferAcronymCategory af.2, [lower af.1]⟩)) ∧
    (∀ ff : Str,
      (keywordHit diseaseKeywords (lower ff) = true →
        inferAcronymCategory ff = toL "DISEASE") ∧
      (keywordHit diseaseKeywords (lower ff) = false →
        keywordHit symptomKeywords (lower ff) = true →
        inferAcronymCategory ff = toL "SYMPTOM") ∧
      (keywordHit diseaseKeywords (lower ff) = false →
        keywordHit symptomKeywords (lower ff) = false →
        keywordHit proteinKeywords (lower ff) = true →
        inferAcronymCategory ff = toL "PROTEIN") ∧
      (keywordHit diseaseKeywords (lower ff) = false →
        keywordHit symptomKeywords (lower ff) = false →
        keywordHit proteinKeywords (lower ff) = false →
        keywordHit regionKeywords (lower ff) = true →
        inferAcronymCategory ff = toL "BRAIN_REGION") ∧
      (keywordHit diseaseKeywords (lower ff) = false →
        keywordHit symptomKeywords (lower ff) = false →
        keywordHit proteinKeywords (lower ff) = false →
        keywordHit regionKeywords (lower ff) = false →
        inferAcronymCategory ff = toL "ACRONYM")) := by
  constructor
  · intro entries
    rfl
  · intro ff
    unfold inferAcronymCategory
    refine ⟨?_, ?_, ?_, ?_, ?_⟩
    · intro h1
      rw [if_pos h1]
    · intro h1 h2
      rw [if_neg (by rw [h1]; exact Bool.false_ne_true), if_pos h2]
    · intro h1 h2 h3
      rw [if_neg (by rw [h1]; exact Bool.false_ne_true),
        if_neg (by rw [h2]; exact Bool.false_ne_true), if_pos h3]
    · intro h1 h2 h3 h4
      rw [if_neg (by rw [h1]; exact Bool.false_ne_true),
        if_neg (by rw [h2]; exact Bool.false_ne_true),
        if_neg (by rw [h3]; exact Bool.false_ne_true), if_pos h4]
    · intro h1 h2 h3 h4
      rw [if_neg (by rw [h1]; exact Bool.false_ne_true),
        if_neg (by rw [h2]; exact Bool.false_ne_true),
        if_neg (by rw [h3]; exact Bool.false_ne_true),
        if_neg (by rw [h4]; exact Bool.false_ne_true)]

/-- C9: on the text "5 (ABC)" the term capture matches the lone space
before the parenthesis, which `strip()` reduces to the empty string, so
the alias mapping contains the empty string as a term key. -/
theorem c9_empty_term_alias :
    extract_aliases (toL "5 (ABC)") = [(([] : Str), toL "ABC")] := rfl

/-- C10: overlapping or nested mentions are not excluded: when the second
entity of a start-ordered pair begins before the first ends, the distance
test still passes (the signed gap is negative), the intervening slice is
the empty degenerate slice, and with an above-threshold score the pair is
classified and returned as a relationship. -/
theorem c10_overlapping_pairs :
    ∀ (text : Str) (classify : Str → Str × ℚ) (e1 e2 : EntTup),
      e1.start ≤ e2.start → e2.start < e1.end_ →
      (e2.start : Int) - (e1.end_ : Int) ≤ 200 ∧
      sliceL text e1.end_ e2.start = [] ∧
      ((classify (sampleOf text e1 e2)).2 > 7 / 10 →
        relationshipsFrom text classify [e1, e2] =
          [⟨e1.text, e1.cat, e2.text, e2.cat, (classify (sampleOf text e1 e2)).1,
            (classify (sampleOf text e1 e2)).2,
            sliceL text (e1.start - 20) (min text.length (e2.end_ + 20))⟩]) := by
  intro text classify e1 e2 hle hover
  have hgap : (e2.start : Int) - (e1.end_ : Int) ≤ 200 := by
    have h' : (e2.start : Int) < (e1.end_ : Int) := by exact_mod_cast hover
    omega
  refine ⟨hgap, ?_, ?_⟩
  · unfold sliceL
    rw [Nat.sub_eq_zero_of_le (Nat.le_of_lt hover), List.take_zero]
  · intro hscore
    have hproc : processPair text classify e1 e2 =
        some ⟨e1.text, e1.cat, e2.text, e2.cat, (classify (sampleOf text e1 e2)).1,
              (classify (sampleOf text e1 e2)).2,
              sliceL text (e1.start - 20) (min text.length (e2.end_ + 20))⟩ := by
      unfold processPair
      rw [if_neg (not_lt.mpr hgap), if_pos hscore]
    have hsort : sortByStart [e1, e2] = [e1, e2] := by
      show insertByStart e2 [e1] = [e1, e2]
      unfold insertByStart
      rw [if_neg (Nat.not_lt.mpr hle)]
      rfl
    unfold relationshipsFrom
    rw [hsort]
    show List.filterMap (fun p => processPair text classify p.1 p.2) [(e1, e2)] = _
    simp [List.filterMap_cons, hproc]

theorem c10_overlapping_pairs_witness :
    (eO2.start : Int) - (eO1.end_ : Int) ≤ 200 ∧
    sliceL overlapText eO1.end_ eO2.start = [] ∧
    ((demoClassify (sampleOf overlapText eO1 eO2)).2 > 7 / 10 →
      relationshipsFrom overlapText demoClassify [eO1, eO2] =
        [⟨eO1.text, eO1.cat, eO2.text, eO2.cat,
          (demoClassify (sampleOf overlapText eO1 eO2)).1,
          (demoClassify (sampleOf overlapText eO1 eO2)).2,
          sliceL overlapText (eO1.start - 20) (min overlapText.length (eO2.end_ + 20))⟩]) :=
  c10_overlapping_pairs overlapText demoClassify eO1 eO2 (by decide) (by decide)

end Apollo
